import Mathlib

/-!
Shallow embedding of the persistence and ordering core of the kids-ledger
repository (src/worker/db/index.ts, src/worker/db/migrations.ts and the
update-balance action of src/app/routes/ledger.tsx).

The backing store is modelled as three row lists kept in insertion (rowid)
order plus the AUTOINCREMENT counters for the two integer-keyed tables.
`sortOrder` and `balance` are modelled as rationals (the source treats them
as JavaScript numbers and divides sort keys by 2); timestamps are naturals,
each operation receiving the current time `now` explicitly in place of
SQLite's CURRENT_TIMESTAMP.

A SQL read `ORDER BY sort_order ASC` leaves the relative order of rows with
equal sort keys unspecified, so sibling reads are modelled as a relation
between the store and the returned list: any permutation of the matching
rows that is non-decreasing in `sortOrder` is an admissible result.
-/

namespace KidsLedger

/-- Row of the `ledgers` table. -/
structure Ledger where
  id : String
  name : String
  createdAt : Nat
  updatedAt : Nat
deriving DecidableEq, Repr

/-- Row of the `kids` table. -/
structure Kid where
  id : Nat
  ledgerId : String
  name : String
  emoji : String
  sortOrder : ℚ
  createdAt : Nat
  updatedAt : Nat
deriving DecidableEq, Repr

/-- Row of the `accounts` table. -/
structure Account where
  id : Nat
  kidId : Nat
  name : String
  balance : ℚ
  sortOrder : ℚ
  createdAt : Nat
  updatedAt : Nat
deriving DecidableEq, Repr

/-- The whole backing store: the three tables in rowid order together with
the AUTOINCREMENT counters for `kids.id` and `accounts.id`. -/
structure DBState where
  ledgers : List Ledger
  kids : List Kid
  accounts : List Account
  nextKidId : Nat
  nextAccountId : Nat
deriving DecidableEq, Repr

/-- `SELECT * FROM ledgers WHERE id = ?` (`DB.getLedger`). -/
def getLedger (s : DBState) (id : String) : Option Ledger :=
  s.ledgers.find? (fun l => l.id == id)

/-- `SELECT * FROM kids WHERE id = ?` (`DB.getKid`). -/
def getKid (s : DBState) (id : Nat) : Option Kid :=
  s.kids.find? (fun k => k.id == id)

/-- `SELECT * FROM accounts WHERE id = ?` (`DB.getAccount`). -/
def getAccount (s : DBState) (id : Nat) : Option Account :=
  s.accounts.find? (fun a => a.id == id)

/-- The aggregate `SELECT MAX(sort_order) ...` computes: `none` when there
are no rows, otherwise the greatest value, matching SQL MAX returning NULL
on an empty set. `DB.createKid`/`DB.createAccount` run this query but then
read the camel-cased property `maxOrder` from a row keyed `max_order`
(the result is not passed through `snakeToCamel`), so its value never
actually reaches the assigned sort key; it is kept here to state what the
dead query computes. -/
def maxOrder : List ℚ → Option ℚ
  | [] => none
  | x :: xs =>
      match maxOrder xs with
      | none => some x
      | some m => some (max x m)

/-- The rows of the `kids` table belonging to one ledger, in rowid order. -/
def kidsOfLedger (s : DBState) (ledgerId : String) : List Kid :=
  s.kids.filter (fun k => k.ledgerId == ledgerId)

/-- The rows of the `accounts` table belonging to one kid, in rowid order. -/
def accountsOfKid (s : DBState) (kidId : Nat) : List Account :=
  s.accounts.filter (fun a => a.kidId == kidId)

/-- Admissible results of `DB.getKidsByLedger`, whose query is
`SELECT * FROM kids WHERE ledger_id = ? ORDER BY sort_order ASC`: any
permutation of the matching rows that is non-decreasing in `sortOrder`
(the query names no secondary sort key, so ties are unconstrained). -/
def getKidsByLedgerResult (s : DBState) (ledgerId : String) (out : List Kid) : Prop :=
  out.Perm (kidsOfLedger s ledgerId) ∧
  out.Chain' (fun a b => a.sortOrder ≤ b.sortOrder)

/-- Admissible results of `DB.getAccountsByKid`, whose query is
`SELECT * FROM accounts WHERE kid_id = ? ORDER BY sort_order ASC`: any
permutation of the matching rows that is non-decreasing in `sortOrder`. -/
def getAccountsByKidResult (s : DBState) (kidId : Nat) (out : List Account) : Prop :=
  out.Perm (accountsOfKid s kidId) ∧
  out.Chain' (fun a b => a.sortOrder ≤ b.sortOrder)

/-- Admissible results of `DB.getFullLedger`: the ledger row, plus an
admissible kids read, each kid paired with an admissible read of its own
accounts. -/
def getFullLedgerResult (s : DBState) (ledgerId : String)
    (res : Ledger × List (Kid × List Account)) : Prop :=
  getLedger s ledgerId = some res.1 ∧
  getKidsByLedgerResult s ledgerId (res.2.map Prod.fst) ∧
  ∀ p ∈ res.2, getAccountsByKidResult s p.1.id p.2

/-- `DB.createKid`: when `data.sortOrder` is absent the source runs
`SELECT MAX(sort_order) as max_order FROM kids WHERE ledger_id = ?` and
evaluates `(maxOrder?.maxOrder ?? 0) + 1`. The returned row carries the
aggregate under the key `max_order` and is not passed through
`snakeToCamel`, so the `maxOrder` property read is undefined — modelled as
`none` — and the `?? 0` fallback always fires: the assigned key is
`0 + 1` regardless of the existing siblings. The row is appended with the
next AUTOINCREMENT id. -/
def createKid (s : DBState) (ledgerId name emoji : String)
    (sortOrderArg : Option ℚ) (now : Nat) : Kid × DBState :=
  let maxOrderProperty : Option ℚ := none
  let sortOrder :=
    match sortOrderArg with
    | some so => so
    | none => maxOrderProperty.getD 0 + 1
  let kid : Kid :=
    { id := s.nextKidId, ledgerId := ledgerId, name := name, emoji := emoji
      sortOrder := sortOrder, createdAt := now, updatedAt := now }
  (kid, { s with kids := s.kids ++ [kid], nextKidId := s.nextKidId + 1 })

/-- `DB.createAccount`: when `data.sortOrder` is absent the source runs
`SELECT MAX(sort_order) as max_order FROM accounts WHERE kid_id = ?` and
evaluates `(maxOrder?.maxOrder ?? 0) + 1`; as in `createKid` the row is
keyed `max_order` and never camel-cased, so the property read is undefined
(`none`) and the assigned key is always `0 + 1`. The row is appended with
the next AUTOINCREMENT id. -/
def createAccount (s : DBState) (kidId : Nat) (name : String) (balance : ℚ)
    (sortOrderArg : Option ℚ) (now : Nat) : Account × DBState :=
  let maxOrderProperty : Option ℚ := none
  let sortOrder :=
    match sortOrderArg with
    | some so => so
    | none => maxOrderProperty.getD 0 + 1
  let account : Account :=
    { id := s.nextAccountId, kidId := kidId, name := name, balance := balance
      sortOrder := sortOrder, createdAt := now, updatedAt := now }
  (account, { s with accounts := s.accounts ++ [account],
                     nextAccountId := s.nextAccountId + 1 })

/-- `DB.updateLedger`: applies only the provided field (`name`); with no
field provided it is `getLedger`; otherwise the UPDATE stamps
`updated_at = CURRENT_TIMESTAMP` and returns the row, or `none` when the id
matches nothing. -/
def updateLedger (s : DBState) (id : String) (nameArg : Option String)
    (now : Nat) : Option Ledger × DBState :=
  match nameArg with
  | none => (getLedger s id, s)
  | some n =>
      match getLedger s id with
      | none => (none, s)
      | some l =>
          let l' : Ledger := { l with name := n, updatedAt := now }
          (some l',
           { s with ledgers := s.ledgers.map (fun r => if r.id = id then l' else r) })

/-- `DB.updateKid`: applies only the provided fields (`name`, `emoji`); with
no fields provided it is `getKid`; otherwise the UPDATE stamps
`updated_at = CURRENT_TIMESTAMP` and returns the row, or `none` when the id
matches nothing. -/
def updateKid (s : DBState) (id : Nat) (nameArg emojiArg : Option String)
    (now : Nat) : Option Kid × DBState :=
  match nameArg, emojiArg with
  | none, none => (getKid s id, s)
  | _, _ =>
      match getKid s id with
      | none => (none, s)
      | some k =>
          let k' : Kid := { k with name := nameArg.getD k.name,
                                   emoji := emojiArg.getD k.emoji, updatedAt := now }
          (some k',
           { s with kids := s.kids.map (fun r => if r.id = id then k' else r) })

/-- `DB.updateAccount`: applies only the provided fields (`name`,
`balance`); with no fields provided it is `getAccount`; otherwise the
UPDATE stamps `updated_at = CURRENT_TIMESTAMP` and returns the row, or
`none` when the id matches nothing. -/
def updateAccount (s : DBState) (id : Nat) (nameArg : Option String)
    (balanceArg : Option ℚ) (now : Nat) : Option Account × DBState :=
  match nameArg, balanceArg with
  | none, none => (getAccount s id, s)
  | _, _ =>
      match getAccount s id with
      | none => (none, s)
      | some a =>
          let a' : Account := { a with name := nameArg.getD a.name,
                                       balance := balanceArg.getD a.balance,
                                       updatedAt := now }
          (some a',
           { s with accounts := s.accounts.map (fun r => if r.id = id then a' else r) })

/-- `DB.deleteLedger` (`DELETE FROM ledgers WHERE id = ?`), with the
schema's `ON DELETE CASCADE` of migration `kids_expenses_schema`: the kids
of the ledger go, and the accounts of those kids go transitively. The Bool
is `meta.changes > 0`, which counts only directly deleted rows. -/
def deleteLedger (s : DBState) (id : String) : Bool × DBState :=
  let removed := s.ledgers.any (fun l => l.id == id)
  let deadKid : Nat → Bool := fun kidId =>
    s.kids.any (fun k => k.id == kidId && k.ledgerId == id)
  (removed,
   { s with ledgers := s.ledgers.filter (fun l => !(l.id == id)),
            kids := s.kids.filter (fun k => !(k.ledgerId == id)),
            accounts := s.accounts.filter (fun a => !(deadKid a.kidId)) })

/-- `DB.deleteKid` (`DELETE FROM kids WHERE id = ?`), with the schema's
`ON DELETE CASCADE`: the kid's accounts go with it. The Bool is
`meta.changes > 0`, counting only directly deleted rows. -/
def deleteKid (s : DBState) (id : Nat) : Bool × DBState :=
  let removed := s.kids.any (fun k => k.id == id)
  (removed,
   { s with kids := s.kids.filter (fun k => !(k.id == id)),
            accounts := s.accounts.filter (fun a => !(a.kidId == id)) })

/-- `DB.deleteAccount` (`DELETE FROM accounts WHERE id = ?`). The Bool is
`meta.changes > 0`. -/
def deleteAccount (s : DBState) (id : Nat) : Bool × DBState :=
  let removed := s.accounts.any (fun a => a.id == id)
  (removed,
   { s with accounts := s.accounts.filter (fun a => !(a.id == id)) })

/-- `DB.reorderKid`: `getKid` then, when found, an UPDATE of `sort_order`
and `updated_at` on that row alone, returning the updated row. -/
def reorderKid (s : DBState) (id : Nat) (newSortOrder : ℚ)
    (now : Nat) : Option Kid × DBState :=
  match getKid s id with
  | none => (none, s)
  | some k =>
      let k' : Kid := { k with sortOrder := newSortOrder, updatedAt := now }
      (some k',
       { s with kids := s.kids.map (fun r => if r.id = id then k' else r) })

/-- `DB.reorderAccount`: `getAccount` then, when found, an UPDATE of
`sort_order` and `updated_at` on that row alone. -/
def reorderAccount (s : DBState) (id : Nat) (newSortOrder : ℚ)
    (now : Nat) : Option Account × DBState :=
  match getAccount s id with
  | none => (none, s)
  | some a =>
      let a' : Account := { a with sortOrder := newSortOrder, updatedAt := now }
      (some a',
       { s with accounts := s.accounts.map (fun r => if r.id = id then a' else r) })

/-- The `let newSortOrder` block of `DB.reorderKidBetween`: 0 with no
neighbors, `after.sortOrder / 2` with only `afterId`,
`before.sortOrder + 1` with only `beforeId`, the midpoint with both;
`none` when a named neighbor lookup misses. The neighbor lookups are plain
`getKid` calls: they do not check the neighbor's `ledgerId` against the
target's. -/
def kidBetweenKey (s : DBState) (beforeId afterId : Option Nat) : Option ℚ :=
  match beforeId, afterId with
  | none, none => some 0
  | none, some aid => (getKid s aid).map (fun ak => ak.sortOrder / 2)
  | some bid, none => (getKid s bid).map (fun bk => bk.sortOrder + 1)
  | some bid, some aid =>
      match getKid s bid, getKid s aid with
      | some bk, some ak => some ((bk.sortOrder + ak.sortOrder) / 2)
      | _, _ => none

/-- `DB.reorderKidBetween`: resolve the target, compute the new key, and
delegate to `reorderKid`. Any lookup miss returns `null` with the store
untouched. -/
def reorderKidBetween (s : DBState) (id : Nat) (beforeId afterId : Option Nat)
    (now : Nat) : Option Kid × DBState :=
  match getKid s id with
  | none => (none, s)
  | some _ =>
      match kidBetweenKey s beforeId afterId with
      | none => (none, s)
      | some so => reorderKid s id so now

/-- The `let newSortOrder` block of `DB.reorderAccountBetween`: the same
computation as `kidBetweenKey`, over the `accounts` table; the neighbor
lookups do not check the neighbor's `kidId` against the target's. -/
def accountBetweenKey (s : DBState) (beforeId afterId : Option Nat) : Option ℚ :=
  match beforeId, afterId with
  | none, none => some 0
  | none, some aid => (getAccount s aid).map (fun ak => ak.sortOrder / 2)
  | some bid, none => (getAccount s bid).map (fun bk => bk.sortOrder + 1)
  | some bid, some aid =>
      match getAccount s bid, getAccount s aid with
      | some bk, some ak => some ((bk.sortOrder + ak.sortOrder) / 2)
      | _, _ => none

/-- `DB.reorderAccountBetween`: same control flow as `reorderKidBetween`,
applied to the `accounts` table. -/
def reorderAccountBetween (s : DBState) (id : Nat) (beforeId afterId : Option Nat)
    (now : Nat) : Option Account × DBState :=
  match getAccount s id with
  | none => (none, s)
  | some _ =>
      match accountBetweenKey s beforeId afterId with
      | none => (none, s)
      | some so => reorderAccount s id so now

/-- Operation tag of the update-balance intent. -/
inductive BalanceOp where
  | add
  | remove
deriving DecidableEq, Repr

/-- Result of the update-balance route action. -/
inductive BalanceResult where
  | notFound
  | success (newBalance : ℚ)
deriving DecidableEq, Repr

/-- First half of the update-balance case of the ledger route action: the
`getAccount` read, which yields the pre-update balance. -/
def updateBalanceRead (s : DBState) (id : Nat) : Option ℚ :=
  (getAccount s id).map Account.balance

/-- Second half of the update-balance case: compute
`operation == add ? balance + amount : balance - amount` from a previously
read balance and write it back via `updateAccount` as a full replacement of
the `balance` field. -/
def updateBalanceWrite (s : DBState) (id : Nat) (readBalance amount : ℚ)
    (op : BalanceOp) (now : Nat) : DBState :=
  let newBalance :=
    match op with
    | .add => readBalance + amount
    | .remove => readBalance - amount
  (updateAccount s id none (some newBalance) now).2

/-- The whole update-balance case of the ledger route action, run without
interleaving: read, then compute, then write. -/
def updateBalance (s : DBState) (id : Nat) (amount : ℚ) (op : BalanceOp)
    (now : Nat) : BalanceResult × DBState :=
  match updateBalanceRead s id with
  | none => (.notFound, s)
  | some b =>
      let newBalance :=
        match op with
        | .add => b + amount
        | .remove => b - amount
      (.success newBalance, updateBalanceWrite s id b amount op now)


/-! ### A concrete sample store used to instantiate the theorems -/

/-- Sample ledger row. -/
def wLedger : Ledger := { id := "L", name := "Smith", createdAt := 0, updatedAt := 0 }

/-- Sample kid rows of ledger "L", with sort keys 1, 2, 3. -/
def wK1 : Kid :=
  { id := 1, ledgerId := "L", name := "Ann", emoji := "a", sortOrder := 1,
    createdAt := 0, updatedAt := 0 }

def wK2 : Kid :=
  { id := 2, ledgerId := "L", name := "Ben", emoji := "b", sortOrder := 2,
    createdAt := 0, updatedAt := 0 }

def wK3 : Kid :=
  { id := 3, ledgerId := "L", name := "Cam", emoji := "c", sortOrder := 3,
    createdAt := 0, updatedAt := 0 }

/-- Sample account rows of kid 1, with sort keys 1, 2, 3. -/
def wA1 : Account :=
  { id := 1, kidId := 1, name := "Savings", balance := 0, sortOrder := 1,
    createdAt := 0, updatedAt := 0 }

def wA2 : Account :=
  { id := 2, kidId := 1, name := "Spending", balance := 10, sortOrder := 2,
    createdAt := 0, updatedAt := 0 }

def wA3 : Account :=
  { id := 3, kidId := 1, name := "Charity", balance := 5, sortOrder := 3,
    createdAt := 0, updatedAt := 0 }

/-- The sample store. -/
def wState : DBState :=
  { ledgers := [wLedger], kids := [wK1, wK2, wK3], accounts := [wA1, wA2, wA3],
    nextKidId := 4, nextAccountId := 4 }

/-- A second sample ledger, disjoint from "L". -/
def mLedger : Ledger := { id := "M", name := "Jones", createdAt := 0, updatedAt := 0 }

/-- A kid of ledger "M". -/
def mK4 : Kid :=
  { id := 4, ledgerId := "M", name := "Dee", emoji := "d", sortOrder := 1,
    createdAt := 0, updatedAt := 0 }

/-- An account of kid 4. -/
def mA4 : Account :=
  { id := 4, kidId := 4, name := "Savings", balance := 7, sortOrder := 1,
    createdAt := 0, updatedAt := 0 }

/-- A two-ledger sample store. -/
def w2State : DBState :=
  { ledgers := [wLedger, mLedger], kids := [wK1, wK2, wK3, mK4],
    accounts := [wA1, wA2, wA3, mA4], nextKidId := 5, nextAccountId := 5 }

/-- Two kids of a ledger "T" with equal sort keys 0 and ids 1 < 2. -/
def tK1 : Kid :=
  { id := 1, ledgerId := "T", name := "Pat", emoji := "p", sortOrder := 0,
    createdAt := 0, updatedAt := 0 }

def tK2 : Kid :=
  { id := 2, ledgerId := "T", name := "Quinn", emoji := "q", sortOrder := 0,
    createdAt := 0, updatedAt := 0 }

/-- A store whose only two kids tie on `sortOrder`. -/
def tState : DBState :=
  { ledgers := [{ id := "T", name := "Tie", createdAt := 0, updatedAt := 0 }],
    kids := [tK1, tK2], accounts := [], nextKidId := 3, nextAccountId := 1 }

/-- The read order the specification ascribes to the query layer:
`(sortOrder, id)` ascending — strictly increasing sort keys, ties broken by
ascending id. -/
def sortedBySortOrderId (out : List Kid) : Prop :=
  out.Chain' (fun a b =>
    a.sortOrder < b.sortOrder ∨ (a.sortOrder = b.sortOrder ∧ a.id < b.id))

/-- The account-list counterpart of `sortedBySortOrderId`. -/
def sortedBySortOrderIdA (out : List Account) : Prop :=
  out.Chain' (fun a b =>
    a.sortOrder < b.sortOrder ∨ (a.sortOrder = b.sortOrder ∧ a.id < b.id))

/-- `x` occurs at a strictly earlier position than `y` in `out`. -/
def beforeIn {α : Type} (out : List α) (x y : α) : Prop :=
  ∃ i j : Nat, i < j ∧ out.get? i = some x ∧ out.get? j = some y


/-! ### Helper lemmas about the single-row reorder UPDATE -/

/-- The row returned by `reorderKid` is the target with the new key and
timestamp. -/
theorem reorderKid_fst (s : DBState) (id : Nat) (so : ℚ) (now : Nat) :
    (reorderKid s id so now).1 =
      (getKid s id).map (fun k => { k with sortOrder := so, updatedAt := now }) := by
  unfold reorderKid
  cases hk : getKid s id <;> simp [hk]

/-- `reorderKid` leaves every row whose id differs from the target in the
`kids` table unchanged. -/
theorem reorderKid_frame (s : DBState) (id : Nat) (so : ℚ) (now : Nat)
    (k₀ : Kid) (h : k₀ ∈ s.kids) (hne : k₀.id ≠ id) :
    k₀ ∈ (reorderKid s id so now).2.kids := by
  unfold reorderKid
  cases hk : getKid s id with
  | none => simpa using h
  | some k =>
      simp only []
      have hmem := List.mem_map_of_mem
        (fun r : Kid => if r.id = id then { k with sortOrder := so, updatedAt := now } else r) h
      simpa [hne] using hmem

/-- The row returned by `reorderAccount` is the target with the new key and
timestamp. -/
theorem reorderAccount_fst (s : DBState) (id : Nat) (so : ℚ) (now : Nat) :
    (reorderAccount s id so now).1 =
      (getAccount s id).map (fun a => { a with sortOrder := so, updatedAt := now }) := by
  unfold reorderAccount
  cases ha : getAccount s id <;> simp [ha]

/-- `reorderAccount` leaves every row whose id differs from the target in
the `accounts` table unchanged. -/
theorem reorderAccount_frame (s : DBState) (id : Nat) (so : ℚ) (now : Nat)
    (a₀ : Account) (h : a₀ ∈ s.accounts) (hne : a₀.id ≠ id) :
    a₀ ∈ (reorderAccount s id so now).2.accounts := by
  unfold reorderAccount
  cases ha : getAccount s id with
  | none => simpa using h
  | some a =>
      simp only []
      have hmem := List.mem_map_of_mem
        (fun r : Account => if r.id = id then { a with sortOrder := so, updatedAt := now } else r) h
      simpa [hne] using hmem


/-- Exhaustive case analysis of `reorderKidBetween`: the call either misses
the target, misses a neighbor, or delegates to `reorderKid` with the
computed key. -/
theorem reorderKidBetween_cases (s : DBState) (id : Nat)
    (bId aId : Option Nat) (now : Nat) :
    (getKid s id = none ∧ reorderKidBetween s id bId aId now = (none, s)) ∨
    ((∃ tgt, getKid s id = some tgt) ∧
      ((kidBetweenKey s bId aId = none ∧
          reorderKidBetween s id bId aId now = (none, s)) ∨
       (∃ so, kidBetweenKey s bId aId = some so ∧
          reorderKidBetween s id bId aId now = reorderKid s id so now))) := by
  unfold reorderKidBetween
  cases hid : getKid s id with
  | none => exact Or.inl ⟨rfl, rfl⟩
  | some tgt =>
      refine Or.inr ⟨⟨tgt, rfl⟩, ?_⟩
      cases hso : kidBetweenKey s bId aId with
      | none => exact Or.inl ⟨rfl, rfl⟩
      | some so => exact Or.inr ⟨so, rfl, rfl⟩

/-- Exhaustive case analysis of `reorderAccountBetween`. -/
theorem reorderAccountBetween_cases (s : DBState) (id : Nat)
    (bId aId : Option Nat) (now : Nat) :
    (getAccount s id = none ∧ reorderAccountBetween s id bId aId now = (none, s)) ∨
    ((∃ tgt, getAccount s id = some tgt) ∧
      ((accountBetweenKey s bId aId = none ∧
          reorderAccountBetween s id bId aId now = (none, s)) ∨
       (∃ so, accountBetweenKey s bId aId = some so ∧
          reorderAccountBetween s id bId aId now = reorderAccount s id so now))) := by
  unfold reorderAccountBetween
  cases hid : getAccount s id with
  | none => exact Or.inl ⟨rfl, rfl⟩
  | some tgt =>
      refine Or.inr ⟨⟨tgt, rfl⟩, ?_⟩
      cases hso : accountBetweenKey s bId aId with
      | none => exact Or.inl ⟨rfl, rfl⟩
      | some so => exact Or.inr ⟨so, rfl, rfl⟩

/-- What a successfully computed key looks like, by neighbor-argument
shape. -/
theorem kidBetweenKey_spec (s : DBState) (bId aId : Option Nat) (so : ℚ)
    (h : kidBetweenKey s bId aId = some so) :
    match bId, aId with
    | none, none => so = 0
    | none, some aid => ∃ ak, getKid s aid = some ak ∧ so = ak.sortOrder / 2
    | some bid, none => ∃ bk, getKid s bid = some bk ∧ so = bk.sortOrder + 1
    | some bid, some aid =>
        ∃ bk ak, getKid s bid = some bk ∧ getKid s aid = some ak ∧
          so = (bk.sortOrder + ak.sortOrder) / 2 := by
  cases bId with
  | none =>
      cases aId with
      | none => simpa [kidBetweenKey] using h.symm
      | some aid =>
          cases haid : getKid s aid with
          | none => simp [kidBetweenKey, haid] at h
          | some ak =>
              simp only [kidBetweenKey, haid, Option.map_some'] at h
              exact ⟨ak, haid, (Option.some_inj.mp h).symm⟩
  | some bid =>
      cases aId with
      | none =>
          cases hbid : getKid s bid with
          | none => simp [kidBetweenKey, hbid] at h
          | some bk =>
              simp only [kidBetweenKey, hbid, Option.map_some'] at h
              exact ⟨bk, hbid, (Option.some_inj.mp h).symm⟩
      | some aid =>
          cases hbid : getKid s bid with
          | none => simp [kidBetweenKey, hbid] at h
          | some bk =>
              cases haid : getKid s aid with
              | none => simp [kidBetweenKey, hbid, haid] at h
              | some ak =>
                  simp only [kidBetweenKey, hbid, haid] at h
                  exact ⟨bk, ak, hbid, haid, (Option.some_inj.mp h).symm⟩

/-- What a successfully computed key looks like, account version. -/
theorem accountBetweenKey_spec (s : DBState) (bId aId : Option Nat) (so : ℚ)
    (h : accountBetweenKey s bId aId = some so) :
    match bId, aId with
    | none, none => so = 0
    | none, some aid => ∃ ak, getAccount s aid = some ak ∧ so = ak.sortOrder / 2
    | some bid, none => ∃ bk, getAccount s bid = some bk ∧ so = bk.sortOrder + 1
    | some bid, some aid =>
        ∃ bk ak, getAccount s bid = some bk ∧ getAccount s aid = some ak ∧
          so = (bk.sortOrder + ak.sortOrder) / 2 := by
  cases bId with
  | none =>
      cases aId with
      | none => simpa [accountBetweenKey] using h.symm
      | some aid =>
          cases haid : getAccount s aid with
          | none => simp [accountBetweenKey, haid] at h
          | some ak =>
              simp only [accountBetweenKey, haid, Option.map_some'] at h
              exact ⟨ak, haid, (Option.some_inj.mp h).symm⟩
  | some bid =>
      cases aId with
      | none =>
          cases hbid : getAccount s bid with
          | none => simp [accountBetweenKey, hbid] at h
          | some bk =>
              simp only [accountBetweenKey, hbid, Option.map_some'] at h
              exact ⟨bk, hbid, (Option.some_inj.mp h).symm⟩
      | some aid =>
          cases hbid : getAccount s bid with
          | none => simp [accountBetweenKey, hbid] at h
          | some bk =>
              cases haid : getAccount s aid with
              | none => simp [accountBetweenKey, hbid, haid] at h
              | some ak =>
                  simp only [accountBetweenKey, hbid, haid] at h
                  exact ⟨bk, ak, hbid, haid, (Option.some_inj.mp h).symm⟩


/-- C1: for every reorder of a kid among its ledger's kids or of an account
among its kid's accounts, the new sort key is computed exactly as: 0 when
neither `beforeId` nor `afterId` is given; `afterItem.sortOrder / 2` when
only `afterId` is given; `beforeItem.sortOrder + 1` when only `beforeId` is
given; and the arithmetic midpoint of the two neighbors' keys when both
are given — and the call leaves every other row, in particular every other
sibling's sort key, unchanged. -/
theorem reorder_between_new_key_formula
    (s : DBState) (id : Nat) (beforeId afterId : Option Nat) (now : Nat) :
    (∀ k, (reorderKidBetween s id beforeId afterId now).1 = some k →
       (match beforeId, afterId with
        | none, none => k.sortOrder = 0
        | none, some aid =>
            ∃ ak, getKid s aid = some ak ∧ k.sortOrder = ak.sortOrder / 2
        | some bid, none =>
            ∃ bk, getKid s bid = some bk ∧ k.sortOrder = bk.sortOrder + 1
        | some bid, some aid =>
            ∃ bk ak, getKid s bid = some bk ∧ getKid s aid = some ak ∧
              k.sortOrder = (bk.sortOrder + ak.sortOrder) / 2) ∧
       ∀ k₀ ∈ s.kids, k₀.id ≠ id →
         k₀ ∈ (reorderKidBetween s id beforeId afterId now).2.kids) ∧
    (∀ a, (reorderAccountBetween s id beforeId afterId now).1 = some a →
       (match beforeId, afterId with
        | none, none => a.sortOrder = 0
        | none, some aid =>
            ∃ ak, getAccount s aid = some ak ∧ a.sortOrder = ak.sortOrder / 2
        | some bid, none =>
            ∃ bk, getAccount s bid = some bk ∧ a.sortOrder = bk.sortOrder + 1
        | some bid, some aid =>
            ∃ bk ak, getAccount s bid = some bk ∧ getAccount s aid = some ak ∧
              a.sortOrder = (bk.sortOrder + ak.sortOrder) / 2) ∧
       ∀ a₀ ∈ s.accounts, a₀.id ≠ id →
         a₀ ∈ (reorderAccountBetween s id beforeId afterId now).2.accounts) := by
  constructor
  · intro k hk
    rcases reorderKidBetween_cases s id beforeId afterId now with
      ⟨_, heq⟩ | ⟨⟨tgt, htgt⟩, ⟨_, heq⟩ | ⟨so, hso, heq⟩⟩
    · rw [heq] at hk; exact absurd hk (by simp)
    · rw [heq] at hk; exact absurd hk (by simp)
    · have hfst := reorderKid_fst s id so now
      rw [heq] at hk
      rw [hfst, htgt] at hk
      simp only [Option.map_some'] at hk
      have hkval := (Option.some_inj.mp hk).symm
      have hkey := kidBetweenKey_spec s beforeId afterId so hso
      constructor
      · have hks : k.sortOrder = so := by rw [hkval]
        cases beforeId with
        | none =>
            cases afterId with
            | none => rw [hks]; exact hkey
            | some aid =>
                obtain ⟨ak, hak, hso'⟩ := hkey
                exact ⟨ak, hak, by rw [hks, hso']⟩
        | some bid =>
            cases afterId with
            | none =>
                obtain ⟨bk, hbk, hso'⟩ := hkey
                exact ⟨bk, hbk, by rw [hks, hso']⟩
            | some aid =>
                obtain ⟨bk, ak, hbk, hak, hso'⟩ := hkey
                exact ⟨bk, ak, hbk, hak, by rw [hks, hso']⟩
      · intro k₀ h₀ hne
        rw [heq]
        exact reorderKid_frame s id so now k₀ h₀ hne
  · intro a ha
    rcases reorderAccountBetween_cases s id beforeId afterId now with
      ⟨_, heq⟩ | ⟨⟨tgt, htgt⟩, ⟨_, heq⟩ | ⟨so, hso, heq⟩⟩
    · rw [heq] at ha; exact absurd ha (by simp)
    · rw [heq] at ha; exact absurd ha (by simp)
    · have hfst := reorderAccount_fst s id so now
      rw [heq] at ha
      rw [hfst, htgt] at ha
      simp only [Option.map_some'] at ha
      have haval := (Option.some_inj.mp ha).symm
      have hkey := accountBetweenKey_spec s beforeId afterId so hso
      constructor
      · have has : a.sortOrder = so := by rw [haval]
        cases beforeId with
        | none =>
            cases afterId with
            | none => rw [has]; exact hkey
            | some aid =>
                obtain ⟨ak, hak, hso'⟩ := hkey
                exact ⟨ak, hak, by rw [has, hso']⟩
        | some bid =>
            cases afterId with
            | none =>
                obtain ⟨bk, hbk, hso'⟩ := hkey
                exact ⟨bk, hbk, by rw [has, hso']⟩
            | some aid =>
                obtain ⟨bk, ak, hbk, hak, hso'⟩ := hkey
                exact ⟨bk, ak, hbk, hak, by rw [has, hso']⟩
      · intro a₀ h₀ hne
        rw [heq]
        exact reorderAccount_frame s id so now a₀ h₀ hne

/-- Witness for C1: reordering kid 3 between kids 1 and 2 (and account 3
between accounts 1 and 2) in the sample store assigns the midpoint key and
leaves the other rows in place. -/
theorem reorder_between_new_key_formula_witness :
    (∃ bk ak, getKid wState 1 = some bk ∧ getKid wState 2 = some ak ∧
       ({ wK3 with sortOrder := (wK1.sortOrder + wK2.sortOrder) / 2,
                   updatedAt := 9 } : Kid).sortOrder =
         (bk.sortOrder + ak.sortOrder) / 2) ∧
    wK1 ∈ (reorderKidBetween wState 3 (some 1) (some 2) 9).2.kids ∧
    (∃ bk ak, getAccount wState 1 = some bk ∧ getAccount wState 2 = some ak ∧
       ({ wA3 with sortOrder := (wA1.sortOrder + wA2.sortOrder) / 2,
                   updatedAt := 9 } : Account).sortOrder =
         (bk.sortOrder + ak.sortOrder) / 2) ∧
    wA1 ∈ (reorderAccountBetween wState 3 (some 1) (some 2) 9).2.accounts := by
  have h := reorder_between_new_key_formula wState 3 (some 1) (some 2) 9
  have hkid := h.1 { wK3 with sortOrder := (wK1.sortOrder + wK2.sortOrder) / 2,
                              updatedAt := 9 } rfl
  have hacc := h.2 { wA3 with sortOrder := (wA1.sortOrder + wA2.sortOrder) / 2,
                              updatedAt := 9 } rfl
  refine ⟨hkid.1, ?_, hacc.1, ?_⟩
  · exact hkid.2 wK1 (by simp [wState]) (by decide)
  · exact hacc.2 wA1 (by simp [wState]) (by decide)


/-! ### Generic lemmas about lookup after a single-row UPDATE -/

/-- After mapping the single-row replacement over the table, looking up the
target key finds the replacement row, provided the lookup used to
succeed. -/
theorem find?_map_if {α β : Type} [DecidableEq β] (f : α → β) (key : β)
    (x' : α) (hx' : f x' = key) (l : List α)
    (h : (l.find? (fun r => f r == key)).isSome) :
    (l.map (fun r => if f r = key then x' else r)).find? (fun r => f r == key) =
      some x' := by
  induction l with
  | nil => simp at h
  | cons x xs ih =>
      by_cases hx : f x = key
      · have b₁ : (f x == key) = true := beq_iff_eq.mpr hx
        have b₂ : (f x' == key) = true := beq_iff_eq.mpr hx'
        simp [List.find?_cons, b₁, b₂, hx]
      · have b₁ : (f x == key) = false := beq_eq_false_iff_ne.mpr hx
        rw [List.map_cons, if_neg hx]
        rw [show ((x :: xs).find? (fun r => f r == key)) =
              xs.find? (fun r => f r == key) by simp [List.find?_cons, b₁]] at h
        rw [show ((x :: xs.map (fun r => if f r = key then x' else r)).find?
              (fun r => f r == key)) =
              (xs.map (fun r => if f r = key then x' else r)).find?
                (fun r => f r == key) by simp [List.find?_cons, b₁]]
        exact ih h

/-- Mapping the single-row replacement over the table leaves every lookup
of a different key unchanged. -/
theorem find?_map_if_ne {α β : Type} [DecidableEq β] (f : α → β)
    (key key₀ : β) (x' : α) (hx' : f x' = key) (hne : key₀ ≠ key) (l : List α) :
    (l.map (fun r => if f r = key then x' else r)).find? (fun r => f r == key₀) =
      l.find? (fun r => f r == key₀) := by
  induction l with
  | nil => rfl
  | cons x xs ih =>
      by_cases hx : f x = key
      · have h₁ : f x ≠ key₀ := by rw [hx]; exact fun hh => hne hh.symm
        have h₂ : f x' ≠ key₀ := by rw [hx']; exact fun hh => hne hh.symm
        have b₁ : (f x == key₀) = false := beq_eq_false_iff_ne.mpr h₁
        have b₂ : (f x' == key₀) = false := beq_eq_false_iff_ne.mpr h₂
        rw [List.map_cons, if_pos hx]
        simp [List.find?_cons, b₁, b₂, ih]
      · rw [List.map_cons, if_neg hx]
        by_cases hx₀ : f x = key₀
        · have b₁ : (f x == key₀) = true := beq_iff_eq.mpr hx₀
          simp [List.find?_cons, b₁]
        · have b₁ : (f x == key₀) = false := beq_eq_false_iff_ne.mpr hx₀
          simp [List.find?_cons, b₁, ih]

/-- `updateAccount` with only a balance, on a resolving id: the stored row
becomes the old row with the new balance and timestamp. -/
theorem updateAccount_balance_eq (s : DBState) (id : Nat) (b : ℚ) (now : Nat)
    (acc : Account) (hacc : getAccount s id = some acc) :
    updateAccount s id none (some b) now =
      (some { acc with balance := b, updatedAt := now },
       { s with accounts := s.accounts.map (fun r =>
           if r.id = id
           then { acc with balance := b, updatedAt := now }
           else r) }) := by
  unfold updateAccount
  rw [hacc]
  rfl


/-- Specialisation of `List.find?_some` with the predicate explicit. -/
theorem find?_pred {α : Type} (p : α → Bool) (l : List α) (a : α)
    (h : l.find? p = some a) : p a = true :=
  List.find?_some h

/-- Looking up the target id after the balance write returns the old row
with the new balance and timestamp. -/
theorem getAccount_after_balance_write (s : DBState) (id : Nat) (nb : ℚ)
    (now : Nat) (acc : Account) (hacc : getAccount s id = some acc) :
    getAccount (updateAccount s id none (some nb) now).2 id =
      some { acc with balance := nb, updatedAt := now } := by
  have hfind : s.accounts.find? (fun a => a.id == id) = some acc := hacc
  have hid : acc.id = id :=
    beq_iff_eq.mp (find?_pred (fun a => a.id == id) s.accounts acc hfind)
  rw [updateAccount_balance_eq s id nb now acc hacc]
  unfold getAccount
  exact find?_map_if Account.id id _ (by simp [hid]) s.accounts
    (by rw [hfind]; rfl)

/-- C2: an update-balance call with a strictly positive amount on an
existing account stores old+amount under `add` and old−amount under
`remove`, with no clamping; on an unresolved account id it fails with the
not-found result before any write, leaving the store unchanged. -/
theorem update_balance_add_remove
    (s : DBState) (id : Nat) (amount : ℚ) (now : Nat) (hpos : 0 < amount) :
    (∀ acc, getAccount s id = some acc →
       (updateBalance s id amount .add now).1 = .success (acc.balance + amount) ∧
       getAccount (updateBalance s id amount .add now).2 id =
         some { acc with balance := acc.balance + amount, updatedAt := now } ∧
       (updateBalance s id amount .remove now).1 = .success (acc.balance - amount) ∧
       getAccount (updateBalance s id amount .remove now).2 id =
         some { acc with balance := acc.balance - amount, updatedAt := now }) ∧
    (getAccount s id = none →
       updateBalance s id amount .add now = (.notFound, s) ∧
       updateBalance s id amount .remove now = (.notFound, s)) := by
  constructor
  · intro acc hacc
    have hread : updateBalanceRead s id = some acc.balance := by
      unfold updateBalanceRead; rw [hacc]; rfl
    refine ⟨?_, ?_, ?_, ?_⟩
    · unfold updateBalance; rw [hread]
    · have : (updateBalance s id amount .add now).2 =
          (updateAccount s id none (some (acc.balance + amount)) now).2 := by
        unfold updateBalance; rw [hread]; rfl
      rw [this]
      exact getAccount_after_balance_write s id (acc.balance + amount) now acc hacc
    · unfold updateBalance; rw [hread]
    · have : (updateBalance s id amount .remove now).2 =
          (updateAccount s id none (some (acc.balance - amount)) now).2 := by
        unfold updateBalance; rw [hread]; rfl
      rw [this]
      exact getAccount_after_balance_write s id (acc.balance - amount) now acc hacc
  · intro hnone
    have hread : updateBalanceRead s id = none := by
      unfold updateBalanceRead; rw [hnone]; rfl
    constructor <;> (unfold updateBalance; rw [hread])

/-- Witness for C2: in the sample store, adding 5 to account 2 (balance 10)
stores 15, removing 5 stores 5, and account id 99 fails untouched. -/
theorem update_balance_add_remove_witness :
    ((updateBalance wState 2 5 .add 9).1 = .success (wA2.balance + 5) ∧
     getAccount (updateBalance wState 2 5 .add 9).2 2 =
       some { wA2 with balance := wA2.balance + 5, updatedAt := 9 }) ∧
    ((updateBalance wState 2 5 .remove 9).1 = .success (wA2.balance - 5) ∧
     getAccount (updateBalance wState 2 5 .remove 9).2 2 =
       some { wA2 with balance := wA2.balance - 5, updatedAt := 9 }) ∧
    updateBalance wState 99 5 .add 9 = (.notFound, wState) := by
  have h := update_balance_add_remove wState 2 5 9 (by norm_num)
  have h99 := update_balance_add_remove wState 99 5 9 (by norm_num)
  have hsome := h.1 wA2 rfl
  exact ⟨⟨hsome.1, hsome.2.1⟩, ⟨hsome.2.2.1, hsome.2.2.2⟩, (h99.2 rfl).1⟩


/-- C9: the balance mutation is a non-atomic read-then-write. Under the
interleaving read₁, read₂, write₁, write₂ against the same account, both
reads see the same pre-update balance, the second write wins, and the
first delta is discarded: the final balance is old + amount₂ rather than
old + amount₁ + amount₂. -/
theorem update_balance_lost_update
    (s : DBState) (id : Nat) (amount₁ amount₂ : ℚ) (now₁ now₂ : Nat)
    (acc : Account) (hacc : getAccount s id = some acc) (hpos : 0 < amount₁) :
    updateBalanceRead s id = some acc.balance ∧
    getAccount
        (updateBalanceWrite (updateBalanceWrite s id acc.balance amount₁ .add now₁)
          id acc.balance amount₂ .add now₂) id =
      some { acc with balance := acc.balance + amount₂, updatedAt := now₂ } ∧
    acc.balance + amount₂ ≠ acc.balance + amount₁ + amount₂ := by
  have hread : updateBalanceRead s id = some acc.balance := by
    unfold updateBalanceRead; rw [hacc]; rfl
  refine ⟨hread, ?_, ?_⟩
  · have h₁ :
        getAccount (updateBalanceWrite s id acc.balance amount₁ .add now₁) id =
          some { acc with balance := acc.balance + amount₁, updatedAt := now₁ } :=
      getAccount_after_balance_write s id (acc.balance + amount₁) now₁ acc hacc
    exact getAccount_after_balance_write
      (updateBalanceWrite s id acc.balance amount₁ .add now₁) id
      (acc.balance + amount₂) now₂
      { acc with balance := acc.balance + amount₁, updatedAt := now₁ } h₁
  · intro h
    have : amount₁ = 0 := by linarith
    exact absurd this (ne_of_gt hpos)

/-- Witness for C9: in the sample store, two add-10 calls on account 1
(balance 0) that both read before either writes leave the balance at
0 + 10, not 0 + 10 + 10. -/
theorem update_balance_lost_update_witness :
    updateBalanceRead wState 1 = some wA1.balance ∧
    getAccount
        (updateBalanceWrite (updateBalanceWrite wState 1 wA1.balance 10 .add 5)
          1 wA1.balance 10 .add 6) 1 =
      some { wA1 with balance := wA1.balance + 10, updatedAt := 6 } ∧
    wA1.balance + 10 ≠ wA1.balance + 10 + 10 :=
  update_balance_lost_update wState 1 10 10 5 6 wA1 rfl (by norm_num)


/-- C8: each delete returns true exactly when a row with that id exists,
and a second delete of the same id returns false (never an error). -/
theorem delete_returns_row_removed
    (s : DBState) (kidId accId : Nat) (lid : String) :
    ((deleteKid s kidId).1 = true ↔ ∃ k ∈ s.kids, k.id = kidId) ∧
    (deleteKid (deleteKid s kidId).2 kidId).1 = false ∧
    ((deleteAccount s accId).1 = true ↔ ∃ a ∈ s.accounts, a.id = accId) ∧
    (deleteAccount (deleteAccount s accId).2 accId).1 = false ∧
    ((deleteLedger s lid).1 = true ↔ ∃ l ∈ s.ledgers, l.id = lid) ∧
    (deleteLedger (deleteLedger s lid).2 lid).1 = false := by
  refine ⟨?_, ?_, ?_, ?_, ?_, ?_⟩
  · simp [deleteKid, List.any_eq_true]
  · simp only [deleteKid, List.any_eq_false]
    intro k hk
    have := (List.mem_filter.mp hk).2
    simpa using this
  · simp [deleteAccount, List.any_eq_true]
  · simp only [deleteAccount, List.any_eq_false]
    intro a ha
    have := (List.mem_filter.mp ha).2
    simpa using this
  · simp [deleteLedger, List.any_eq_true]
  · simp only [deleteLedger, List.any_eq_false]
    intro l hl
    have := (List.mem_filter.mp hl).2
    simpa using this

/-- Witness for C8: deleting kid 1 of the sample store returns true, a
second delete of the same id returns false; likewise account 1 and
ledger "L". -/
theorem delete_returns_row_removed_witness :
    (deleteKid wState 1).1 = true ∧
    (deleteKid (deleteKid wState 1).2 1).1 = false ∧
    (deleteAccount wState 1).1 = true ∧
    (deleteAccount (deleteAccount wState 1).2 1).1 = false ∧
    (deleteLedger wState "L").1 = true ∧
    (deleteLedger (deleteLedger wState "L").2 "L").1 = false := by
  have h := delete_returns_row_removed wState 1 1 "L"
  exact ⟨h.1.mpr ⟨wK1, by simp [wState], rfl⟩, h.2.1,
         h.2.2.1.mpr ⟨wA1, by simp [wState], rfl⟩, h.2.2.2.1,
         h.2.2.2.2.1.mpr ⟨wLedger, by simp [wState], rfl⟩, h.2.2.2.2.2⟩


/-- C6: deleting a ledger removes all its kids and all their accounts —
afterwards no kid row carries the deleted ledger id and no account row
references a kid of the deleted ledger — while rows of other ledgers are
untouched; deleting a kid removes all its accounts. -/
theorem delete_cascades
    (s : DBState) (lid : String) (kidId : Nat) :
    (∀ k ∈ (deleteLedger s lid).2.kids, k.ledgerId ≠ lid) ∧
    (∀ a ∈ (deleteLedger s lid).2.accounts,
       ∀ k ∈ s.kids, k.ledgerId = lid → a.kidId ≠ k.id) ∧
    (∀ l₀ ∈ s.ledgers, l₀.id ≠ lid → l₀ ∈ (deleteLedger s lid).2.ledgers) ∧
    (∀ k₀ ∈ s.kids, k₀.ledgerId ≠ lid → k₀ ∈ (deleteLedger s lid).2.kids) ∧
    (∀ a₀ ∈ s.accounts, (∀ k ∈ s.kids, k.ledgerId = lid → a₀.kidId ≠ k.id) →
       a₀ ∈ (deleteLedger s lid).2.accounts) ∧
    (∀ a ∈ (deleteKid s kidId).2.accounts, a.kidId ≠ kidId) ∧
    (∀ k₀ ∈ s.kids, k₀.id ≠ kidId → k₀ ∈ (deleteKid s kidId).2.kids) ∧
    (∀ a₀ ∈ s.accounts, a₀.kidId ≠ kidId → a₀ ∈ (deleteKid s kidId).2.accounts) := by
  refine ⟨?_, ?_, ?_, ?_, ?_, ?_, ?_, ?_⟩
  · intro k hk
    have := (List.mem_filter.mp hk).2
    simpa using this
  · intro a ha k hk hklid
    have h2 := (List.mem_filter.mp ha).2
    simp only [Bool.not_eq_true', List.any_eq_false] at h2
    have := h2 k hk
    simp only [Bool.and_eq_true, beq_iff_eq] at this
    intro hak
    exact this ⟨hak.symm, hklid⟩
  · intro l₀ h₀ hne
    exact List.mem_filter.mpr ⟨h₀, by simpa using hne⟩
  · intro k₀ h₀ hne
    exact List.mem_filter.mpr ⟨h₀, by simpa using hne⟩
  · intro a₀ h₀ hres
    refine List.mem_filter.mpr ⟨h₀, ?_⟩
    simp only [Bool.not_eq_true', List.any_eq_false]
    intro k hk
    simp only [Bool.and_eq_true, beq_iff_eq]
    intro hcon
    exact hres k hk hcon.2 hcon.1.symm
  · intro a ha
    have := (List.mem_filter.mp ha).2
    simpa using this
  · intro k₀ h₀ hne
    exact List.mem_filter.mpr ⟨h₀, by simpa using hne⟩
  · intro a₀ h₀ hne
    exact List.mem_filter.mpr ⟨h₀, by simpa using hne⟩

/-- Witness for C6: deleting ledger "L" from the two-ledger store leaves
exactly ledger "M" with kid 4 and account 4 — zero rows referencing the
deleted kids — and kid 4 and account 4 are untouched members. -/
theorem delete_cascades_witness :
    mK4 ∈ (deleteLedger w2State "L").2.kids ∧
    mA4 ∈ (deleteLedger w2State "L").2.accounts ∧
    (deleteLedger w2State "L").2.kids = [mK4] ∧
    (deleteLedger w2State "L").2.accounts = [mA4] ∧
    mA4 ∈ (deleteKid w2State 1).2.accounts := by
  have h := delete_cascades w2State "L" 1
  refine ⟨?_, ?_, rfl, rfl, ?_⟩
  · exact h.2.2.2.1 mK4 (by simp [w2State]) (by decide)
  · exact h.2.2.2.2.1 mA4 (by simp [w2State]) (by decide)
  · exact h.2.2.2.2.2.2.2 mA4 (by simp [w2State]) (by decide)


/-- Looking up the target id after `updateKid` replaced that row. -/
theorem getKid_after_map_update (s : DBState) (id : Nat) (k' : Kid)
    (hk' : k'.id = id) (h : (getKid s id).isSome) :
    (s.kids.map (fun r => if r.id = id then k' else r)).find?
      (fun r => r.id == id) = some k' :=
  find?_map_if Kid.id id k' hk' s.kids h

/-- C7: partial updates of a ledger, a kid, or an account change only the
supplied fields and stamp `updatedAt` to now; with no supplied fields the
call is a no-op read returning the current record; rows with other ids and
the other tables are untouched. -/
theorem partial_update_only_supplied_fields
    (s : DBState) (lid : String) (kidId accId : Nat) (now : Nat) :
    (updateLedger s lid none now = (getLedger s lid, s)) ∧
    (updateKid s kidId none none now = (getKid s kidId, s)) ∧
    (updateAccount s accId none none now = (getAccount s accId, s)) ∧
    (∀ n, (getLedger s lid = none → updateLedger s lid (some n) now = (none, s)) ∧
       (∀ l, getLedger s lid = some l →
          (updateLedger s lid (some n) now).1 =
            some { l with name := n, updatedAt := now } ∧
          getLedger (updateLedger s lid (some n) now).2 lid =
            some { l with name := n, updatedAt := now } ∧
          (∀ l₀ ∈ s.ledgers, l₀.id ≠ lid →
             l₀ ∈ (updateLedger s lid (some n) now).2.ledgers) ∧
          (updateLedger s lid (some n) now).2.kids = s.kids ∧
          (updateLedger s lid (some n) now).2.accounts = s.accounts)) ∧
    (∀ nArg eArg : Option String, nArg.isSome ∨ eArg.isSome →
       (getKid s kidId = none → updateKid s kidId nArg eArg now = (none, s)) ∧
       (∀ k, getKid s kidId = some k →
          (updateKid s kidId nArg eArg now).1 =
            some { k with name := nArg.getD k.name, emoji := eArg.getD k.emoji,
                          updatedAt := now } ∧
          getKid (updateKid s kidId nArg eArg now).2 kidId =
            some { k with name := nArg.getD k.name, emoji := eArg.getD k.emoji,
                          updatedAt := now } ∧
          (∀ k₀ ∈ s.kids, k₀.id ≠ kidId →
             k₀ ∈ (updateKid s kidId nArg eArg now).2.kids) ∧
          (updateKid s kidId nArg eArg now).2.ledgers = s.ledgers ∧
          (updateKid s kidId nArg eArg now).2.accounts = s.accounts)) ∧
    (∀ (nArg : Option String) (bArg : Option ℚ), nArg.isSome ∨ bArg.isSome →
       (getAccount s accId = none → updateAccount s accId nArg bArg now = (none, s)) ∧
       (∀ a, getAccount s accId = some a →
          (updateAccount s accId nArg bArg now).1 =
            some { a with name := nArg.getD a.name, balance := bArg.getD a.balance,
                          updatedAt := now } ∧
          getAccount (updateAccount s accId nArg bArg now).2 accId =
            some { a with name := nArg.getD a.name, balance := bArg.getD a.balance,
                          updatedAt := now } ∧
          (∀ a₀ ∈ s.accounts, a₀.id ≠ accId →
             a₀ ∈ (updateAccount s accId nArg bArg now).2.accounts) ∧
          (updateAccount s accId nArg bArg now).2.ledgers = s.ledgers ∧
          (updateAccount s accId nArg bArg now).2.kids = s.kids)) := by
  refine ⟨rfl, rfl, rfl, ?_, ?_, ?_⟩
  · intro n
    constructor
    · intro hnone
      unfold updateLedger
      rw [hnone]
    · intro l hl
      have hfl : s.ledgers.find? (fun r => r.id == lid) = some l := hl
      have hlid : l.id = lid :=
        beq_iff_eq.mp (find?_pred (fun r => r.id == lid) s.ledgers l hfl)
      have heq : updateLedger s lid (some n) now =
          (some { l with name := n, updatedAt := now },
           { s with ledgers := s.ledgers.map (fun r =>
               if r.id = lid
               then { l with name := n, updatedAt := now }
               else r) }) := by
        unfold updateLedger
        rw [hl]
      rw [heq]
      refine ⟨rfl, ?_, ?_, rfl, rfl⟩
      · exact find?_map_if Ledger.id lid _ (by simp [hlid]) s.ledgers
          (by rw [show s.ledgers.find? (fun r => r.id == lid) = some l from hl]; rfl)
      · intro l₀ h₀ hne
        have hmem := List.mem_map_of_mem
          (fun r : Ledger => if r.id = lid then { l with name := n, updatedAt := now } else r) h₀
        simpa [hne] using hmem
  · intro nArg eArg hsome
    have hred : updateKid s kidId nArg eArg now =
        match getKid s kidId with
        | none => (none, s)
        | some k =>
            (some { k with name := nArg.getD k.name, emoji := eArg.getD k.emoji,
                           updatedAt := now },
             { s with kids := s.kids.map (fun r =>
                 if r.id = kidId
                 then { k with name := nArg.getD k.name, emoji := eArg.getD k.emoji,
                               updatedAt := now }
                 else r) }) := by
      cases nArg with
      | none =>
          cases eArg with
          | none => simp at hsome
          | some e => unfold updateKid; rfl
      | some nn => cases eArg with
          | none => unfold updateKid; rfl
          | some e => unfold updateKid; rfl
    constructor
    · intro hnone
      rw [hred, hnone]
    · intro k hk
      have hfk : s.kids.find? (fun r => r.id == kidId) = some k := hk
      have hkid : k.id = kidId :=
        beq_iff_eq.mp (find?_pred (fun r => r.id == kidId) s.kids k hfk)
      rw [hred, hk]
      refine ⟨rfl, ?_, ?_, rfl, rfl⟩
      · exact find?_map_if Kid.id kidId _ (by simp [hkid]) s.kids
          (by rw [show s.kids.find? (fun r => r.id == kidId) = some k from hk]; rfl)
      · intro k₀ h₀ hne
        have hmem := List.mem_map_of_mem
          (fun r : Kid => if r.id = kidId
                          then { k with name := nArg.getD k.name,
                                        emoji := eArg.getD k.emoji, updatedAt := now }
                          else r) h₀
        simpa [hne] using hmem
  · intro nArg bArg hsome
    have hred : updateAccount s accId nArg bArg now =
        match getAccount s accId with
        | none => (none, s)
        | some a =>
            (some { a with name := nArg.getD a.name, balance := bArg.getD a.balance,
                           updatedAt := now },
             { s with accounts := s.accounts.map (fun r =>
                 if r.id = accId
                 then { a with name := nArg.getD a.name, balance := bArg.getD a.balance,
                               updatedAt := now }
                 else r) }) := by
      cases nArg with
      | none =>
          cases bArg with
          | none => simp at hsome
          | some b => unfold updateAccount; rfl
      | some nn => cases bArg with
          | none => unfold updateAccount; rfl
          | some b => unfold updateAccount; rfl
    constructor
    · intro hnone
      rw [hred, hnone]
    · intro a ha
      have hfa : s.accounts.find? (fun r => r.id == accId) = some a := ha
      have haid : a.id = accId :=
        beq_iff_eq.mp (find?_pred (fun r => r.id == accId) s.accounts a hfa)
      rw [hred, ha]
      refine ⟨rfl, ?_, ?_, rfl, rfl⟩
      · exact find?_map_if Account.id accId _ (by simp [haid]) s.accounts
          (by rw [show s.accounts.find? (fun r => r.id == accId) = some a from ha]; rfl)
      · intro a₀ h₀ hne
        have hmem := List.mem_map_of_mem
          (fun r : Account => if r.id = accId
                              then { a with name := nArg.getD a.name,
                                            balance := bArg.getD a.balance, updatedAt := now }
                              else r) h₀
        simpa [hne] using hmem

/-- Witness for C7: updating kid 1's name only, in the sample store,
returns the old record with the new name and timestamp, keeps the old
emoji, and leaves kid 2 untouched; the no-field call is a no-op read. -/
theorem partial_update_only_supplied_fields_witness :
    updateKid wState 1 none none 9 = (getKid wState 1, wState) ∧
    (updateKid wState 1 (some "Anna") none 9).1 =
      some { wK1 with name := (some "Anna").getD wK1.name,
                      emoji := (none : Option String).getD wK1.emoji,
                      updatedAt := 9 } ∧
    wK2 ∈ (updateKid wState 1 (some "Anna") none 9).2.kids ∧
    (updateAccount wState 99 (some "X") none 9) = (none, wState) := by
  have h := partial_update_only_supplied_fields wState "L" 1 99 9
  have hkid := h.2.2.2.2.1 (some "Anna") none (Or.inl rfl)
  have hk1 := hkid.2 wK1 rfl
  refine ⟨h.2.1, hk1.1, ?_, ?_⟩
  · exact hk1.2.2.1 wK2 (by simp [wState]) (by decide)
  · exact (h.2.2.2.2.2 (some "X") none (Or.inl rfl)).1 rfl


/-- A named neighbor whose lookup misses makes the kid key computation
fail. -/
theorem kidBetweenKey_none_of_missing_neighbor (s : DBState)
    (bId aId : Option Nat) :
    (∀ bid, bId = some bid → getKid s bid = none →
       kidBetweenKey s bId aId = none) ∧
    (∀ aid, aId = some aid → getKid s aid = none →
       kidBetweenKey s bId aId = none) := by
  constructor
  · rintro bid rfl hmiss
    cases aId with
    | none => simp [kidBetweenKey, hmiss]
    | some aid => simp [kidBetweenKey, hmiss]
  · rintro aid rfl hmiss
    cases bId with
    | none => simp [kidBetweenKey, hmiss]
    | some bid =>
        cases hb : getKid s bid with
        | none => simp [kidBetweenKey, hb]
        | some bk => simp [kidBetweenKey, hb, hmiss]

/-- A named neighbor whose lookup misses makes the account key computation
fail. -/
theorem accountBetweenKey_none_of_missing_neighbor (s : DBState)
    (bId aId : Option Nat) :
    (∀ bid, bId = some bid → getAccount s bid = none →
       accountBetweenKey s bId aId = none) ∧
    (∀ aid, aId = some aid → getAccount s aid = none →
       accountBetweenKey s bId aId = none) := by
  constructor
  · rintro bid rfl hmiss
    cases aId with
    | none => simp [accountBetweenKey, hmiss]
    | some aid => simp [accountBetweenKey, hmiss]
  · rintro aid rfl hmiss
    cases bId with
    | none => simp [accountBetweenKey, hmiss]
    | some bid =>
        cases hb : getAccount s bid with
        | none => simp [accountBetweenKey, hb]
        | some bk => simp [accountBetweenKey, hb, hmiss]

/-- C5 counterexample: a named neighbor that exists but is NOT a sibling of
the target (different parent) does not make the reorder fail. Kid 4 lives
in ledger "M", kid 1 in ledger "L"; reordering kid 4 with beforeId = 1
succeeds and assigns `wK1.sortOrder + 1`, where the claim demands a
NeighborNotFound failure. -/
theorem reorder_cross_parent_neighbor_succeeds :
    mK4.ledgerId ≠ wK1.ledgerId ∧
    (reorderKidBetween w2State 4 (some 1) none 9).1 =
      some { mK4 with sortOrder := wK1.sortOrder + 1, updatedAt := 9 } := by
  constructor
  · decide
  · rfl

/-- C5 (amended): a reorder fails — returns the absent result with the
store unchanged — when the target id does not resolve, and when a named
`beforeId`/`afterId` does not resolve to an existing row of its entity
type (regardless of parent); in every such failure no sort key changes. -/
theorem reorder_unresolved_ids_fail_unchanged
    (s : DBState) (id : Nat) (bId aId : Option Nat) (now : Nat) :
    (getKid s id = none → reorderKidBetween s id bId aId now = (none, s)) ∧
    (∀ bid, bId = some bid → getKid s bid = none →
       reorderKidBetween s id bId aId now = (none, s)) ∧
    (∀ aid, aId = some aid → getKid s aid = none →
       reorderKidBetween s id bId aId now = (none, s)) ∧
    (getAccount s id = none → reorderAccountBetween s id bId aId now = (none, s)) ∧
    (∀ bid, bId = some bid → getAccount s bid = none →
       reorderAccountBetween s id bId aId now = (none, s)) ∧
    (∀ aid, aId = some aid → getAccount s aid = none →
       reorderAccountBetween s id bId aId now = (none, s)) := by
  have hkid : kidBetweenKey s bId aId = none →
      reorderKidBetween s id bId aId now = (none, s) := by
    intro hmiss
    rcases reorderKidBetween_cases s id bId aId now with
      ⟨_, heq⟩ | ⟨⟨tgt, htgt⟩, ⟨_, heq⟩ | ⟨so, hso, heq⟩⟩
    · exact heq
    · exact heq
    · rw [hmiss] at hso; exact absurd hso (by simp)
  have hacc : accountBetweenKey s bId aId = none →
      reorderAccountBetween s id bId aId now = (none, s) := by
    intro hmiss
    rcases reorderAccountBetween_cases s id bId aId now with
      ⟨_, heq⟩ | ⟨⟨tgt, htgt⟩, ⟨_, heq⟩ | ⟨so, hso, heq⟩⟩
    · exact heq
    · exact heq
    · rw [hmiss] at hso; exact absurd hso (by simp)
  refine ⟨?_, ?_, ?_, ?_, ?_, ?_⟩
  · intro hmiss
    unfold reorderKidBetween
    rw [hmiss]
  · intro bid hb hmiss
    exact hkid ((kidBetweenKey_none_of_missing_neighbor s bId aId).1 bid hb hmiss)
  · intro aid ha hmiss
    exact hkid ((kidBetweenKey_none_of_missing_neighbor s bId aId).2 aid ha hmiss)
  · intro hmiss
    unfold reorderAccountBetween
    rw [hmiss]
  · intro bid hb hmiss
    exact hacc ((accountBetweenKey_none_of_missing_neighbor s bId aId).1 bid hb hmiss)
  · intro aid ha hmiss
    exact hacc ((accountBetweenKey_none_of_missing_neighbor s bId aId).2 aid ha hmiss)

/-- Witness for C5 (amended): reordering a missing kid 99, or kid 3 with a
missing neighbor 99, returns the absent result and leaves the sample store
unchanged; likewise for accounts. -/
theorem reorder_unresolved_ids_fail_unchanged_witness :
    reorderKidBetween wState 99 none none 9 = (none, wState) ∧
    reorderKidBetween wState 3 (some 99) none 9 = (none, wState) ∧
    reorderKidBetween wState 3 none (some 99) 9 = (none, wState) ∧
    reorderAccountBetween wState 99 none none 9 = (none, wState) ∧
    reorderAccountBetween wState 3 (some 99) none 9 = (none, wState) ∧
    reorderAccountBetween wState 3 none (some 99) 9 = (none, wState) := by
  have h1 := reorder_unresolved_ids_fail_unchanged wState 99 none none 9
  have h2 := reorder_unresolved_ids_fail_unchanged wState 3 (some 99) none 9
  have h3 := reorder_unresolved_ids_fail_unchanged wState 3 none (some 99) 9
  exact ⟨h1.1 rfl, h2.2.1 99 rfl rfl, h3.2.2.1 99 rfl rfl,
         h1.2.2.2.1 rfl, h2.2.2.2.2.1 99 rfl rfl, h3.2.2.2.2.2 99 rfl rfl⟩


/-- Two adjacency chains on the same list combine pointwise. -/
theorem chain'_and {α : Type} {R S : α → α → Prop} :
    ∀ {l : List α}, l.Chain' R → l.Chain' S →
      l.Chain' (fun a b => R a b ∧ S a b) := by
  intro l
  induction l with
  | nil => intro _ _; exact List.chain'_nil
  | cons a t ih =>
      cases t with
      | nil => intro _ _; exact List.chain'_singleton a
      | cons b t' =>
          intro hR hS
          rcases List.chain'_cons.mp hR with ⟨hr, hR'⟩
          rcases List.chain'_cons.mp hS with ⟨hs, hS'⟩
          exact List.chain'_cons.mpr ⟨⟨hr, hs⟩, ih hR' hS'⟩

/-- C3 counterexample: with two sibling kids tying on `sortOrder` (ids
1 and 2), the list [kid 2, kid 1] is an admissible result of the
`getKidsByLedger` query — the query sorts by `sortOrder` alone — yet it is
not ordered by `(sortOrder, id)` ascending. -/
theorem kids_read_tie_not_id_ordered :
    getKidsByLedgerResult tState "T" [tK2, tK1] ∧
    ¬ sortedBySortOrderId [tK2, tK1] := by
  refine ⟨⟨?_, ?_⟩, ?_⟩
  · show ([tK2, tK1] : List Kid).Perm (kidsOfLedger tState "T")
    have h : kidsOfLedger tState "T" = [tK1, tK2] := rfl
    rw [h]
    exact List.Perm.swap tK1 tK2 []
  · exact List.chain'_cons.mpr ⟨le_of_eq rfl, List.chain'_singleton tK1⟩
  · intro h
    have hrel := (List.chain'_cons.mp h).1
    rcases hrel with hlt | ⟨heq, hid⟩
    · have : tK2.sortOrder = tK1.sortOrder := rfl
      exact absurd hlt (by rw [this]; exact lt_irrefl _)
    · exact absurd hid (by decide)

/-- C3 (amended): every admissible result of a sibling read is sorted by
`sortOrder` alone; the id tiebreak the claim asserts holds only when the
siblings' sort keys are pairwise distinct, in which case every admissible
kids read, accounts read, and the kids list of every full-ledger read is
ordered by `(sortOrder, id)` ascending. -/
theorem distinct_keys_make_reads_deterministic
    (s : DBState) (lid : String) (kidId : Nat)
    (res : Ledger × List (Kid × List Account)) :
    (∀ out, getKidsByLedgerResult s lid out →
       (kidsOfLedger s lid).Pairwise (fun x y => x.sortOrder ≠ y.sortOrder) →
       sortedBySortOrderId out) ∧
    (∀ out, getAccountsByKidResult s kidId out →
       (accountsOfKid s kidId).Pairwise (fun x y => x.sortOrder ≠ y.sortOrder) →
       sortedBySortOrderIdA out) ∧
    (getFullLedgerResult s lid res →
       (kidsOfLedger s lid).Pairwise (fun x y => x.sortOrder ≠ y.sortOrder) →
       sortedBySortOrderId (res.2.map Prod.fst)) := by
  have kidPart : ∀ out, getKidsByLedgerResult s lid out →
      (kidsOfLedger s lid).Pairwise (fun x y => x.sortOrder ≠ y.sortOrder) →
      sortedBySortOrderId out := by
    intro out hout hdist
    rcases hout with ⟨hperm, hchain⟩
    have hdo : out.Pairwise (fun x y : Kid => x.sortOrder ≠ y.sortOrder) :=
      (hperm.pairwise_iff (fun hxy => Ne.symm hxy)).mpr hdist
    have hcombined := chain'_and hchain hdo.chain'
    exact hcombined.imp (fun a b hab => Or.inl (lt_of_le_of_ne hab.1 hab.2))
  refine ⟨kidPart, ?_, ?_⟩
  · intro out hout hdist
    rcases hout with ⟨hperm, hchain⟩
    have hdo : out.Pairwise (fun x y : Account => x.sortOrder ≠ y.sortOrder) :=
      (hperm.pairwise_iff (fun hxy => Ne.symm hxy)).mpr hdist
    have hcombined := chain'_and hchain hdo.chain'
    exact hcombined.imp (fun a b hab => Or.inl (lt_of_le_of_ne hab.1 hab.2))
  · intro hres hdist
    exact kidPart (res.2.map Prod.fst) hres.2.1 hdist

/-- Witness for C3 (amended): the sample store's kids have the distinct
keys 1 < 2 < 3, so the in-order read [kid 1, kid 2, kid 3] is
`(sortOrder, id)` ascending. -/
theorem distinct_keys_make_reads_deterministic_witness :
    sortedBySortOrderId [wK1, wK2, wK3] := by
  have h := (distinct_keys_make_reads_deterministic wState "L" 1
    (wLedger, [])).1 [wK1, wK2, wK3]
  refine h ⟨?_, ?_⟩ ?_
  · show ([wK1, wK2, wK3] : List Kid).Perm (kidsOfLedger wState "L")
    have heq : kidsOfLedger wState "L" = [wK1, wK2, wK3] := rfl
    rw [heq]
  · refine List.chain'_cons.mpr ⟨?_, List.chain'_cons.mpr ⟨?_, List.chain'_singleton wK3⟩⟩
    · show wK1.sortOrder ≤ wK2.sortOrder
      show (1 : ℚ) ≤ 2
      norm_num
    · show wK2.sortOrder ≤ wK3.sortOrder
      show (2 : ℚ) ≤ 3
      norm_num
  · have heq : kidsOfLedger wState "L" = [wK1, wK2, wK3] := rfl
    rw [heq]
    refine List.pairwise_cons.mpr ⟨?_, List.pairwise_cons.mpr ⟨?_, List.pairwise_singleton _ _⟩⟩
    · intro k hk
      rcases List.mem_cons.mp hk with rfl | hk2
      · show wK1.sortOrder ≠ wK2.sortOrder
        show (1 : ℚ) ≠ 2
        norm_num
      · rcases List.mem_singleton.mp hk2 with rfl
        show wK1.sortOrder ≠ wK3.sortOrder
        show (1 : ℚ) ≠ 3
        norm_num
    · intro k hk
      rcases List.mem_singleton.mp hk with rfl
      show wK2.sortOrder ≠ wK3.sortOrder
      show (2 : ℚ) ≠ 3
      norm_num


/-- In a list sorted by `key` that permutes `base`, an element with a
strictly smaller key occurs strictly earlier. -/
theorem sorted_lt_beforeIn {α : Type} (key : α → ℚ) (base out : List α)
    (hperm : out.Perm base)
    (hchain : out.Chain' (fun a b => key a ≤ key b))
    (u v : α) (hu : u ∈ base) (hv : v ∈ base) (huv : key u < key v) :
    beforeIn out u v := by
  have hu' : u ∈ out := hperm.mem_iff.mpr hu
  have hv' : v ∈ out := hperm.mem_iff.mpr hv
  obtain ⟨i, hi⟩ := List.mem_iff_get?.mp hu'
  obtain ⟨j, hj⟩ := List.mem_iff_get?.mp hv'
  haveI : IsTrans α (fun a b => key a ≤ key b) :=
    ⟨fun a b c hab hbc => le_trans hab hbc⟩
  have hpair : out.Pairwise (fun a b => key a ≤ key b) :=
    List.chain'_iff_pairwise.mp hchain
  have hi' := hi
  have hj' := hj
  rw [List.get?_eq_some] at hi' hj'
  obtain ⟨hilen, hgi⟩ := hi'
  obtain ⟨hjlen, hgj⟩ := hj'
  rcases lt_trichotomy i j with hij | hij | hij
  · exact ⟨i, j, hij, hi, hj⟩
  · exfalso
    subst hij
    have : u = v := by rw [← hgi, ← hgj]
    rw [this] at huv
    exact lt_irrefl _ huv
  · exfalso
    have hle : key (out.get ⟨j, hjlen⟩) ≤ key (out.get ⟨i, hilen⟩) :=
      List.pairwise_iff_get.mp hpair ⟨j, hjlen⟩ ⟨i, hilen⟩ hij
    rw [hgi, hgj] at hle
    exact absurd huv (not_lt.mpr hle)

/-- In a list sorted by `key` that permutes `base`, an element whose key
strictly dominates every other element of `base` is the last element. -/
theorem sorted_max_getLast {α : Type} (key : α → ℚ) (base out : List α)
    (hperm : out.Perm base)
    (hchain : out.Chain' (fun a b => key a ≤ key b))
    (x : α) (hx : x ∈ base)
    (hmax : ∀ y ∈ base, y ≠ x → key y < key x) :
    out.getLast? = some x := by
  have hx' : x ∈ out := hperm.mem_iff.mpr hx
  have hne : out ≠ [] := List.ne_nil_of_mem hx'
  have hgl : out.getLast? = some (out.getLast hne) :=
    List.getLast?_eq_getLast_of_ne_nil hne
  by_cases hzx : out.getLast hne = x
  · rw [hgl, hzx]
  · exfalso
    have hzb : out.getLast hne ∈ base := hperm.mem_iff.mp (List.getLast_mem hne)
    have hlt : key (out.getLast hne) < key x := hmax _ hzb hzx
    have hdecomp : out.dropLast ++ [out.getLast hne] = out :=
      List.dropLast_append_getLast hne
    have hxdrop : x ∈ out.dropLast := by
      have hmem := hx'
      rw [← hdecomp] at hmem
      rcases List.mem_append.mp hmem with h | h
      · exact h
      · exact absurd (List.mem_singleton.mp h) (fun hh => hzx hh.symm)
    haveI : IsTrans α (fun a b => key a ≤ key b) :=
      ⟨fun a b c hab hbc => le_trans hab hbc⟩
    have hpair : out.Pairwise (fun a b => key a ≤ key b) :=
      List.chain'_iff_pairwise.mp hchain
    rw [← hdecomp] at hpair
    have hle : key x ≤ key (out.getLast hne) :=
      (List.pairwise_append.mp hpair).2.2 x hxdrop _ (List.mem_singleton.mpr rfl)
    exact absurd hlt (not_lt.mpr hle)


/-- C4: for siblings A and B with sort keys a < b, reordering a third
sibling X with beforeId = A and afterId = B assigns X a key strictly
between a and b, and in every admissible subsequent read of the siblings
A comes before X and X before B; likewise for accounts. -/
theorem reorder_between_lands_between
    (s : DBState) (lid : String) (kidId : Nat) (now : Nat) :
    (∀ A B X : Kid,
       getKid s A.id = some A → getKid s B.id = some B → getKid s X.id = some X →
       A.ledgerId = lid → B.ledgerId = lid → X.ledgerId = lid →
       A.sortOrder < B.sortOrder → X.id ≠ A.id → X.id ≠ B.id →
       ∃ X', (reorderKidBetween s X.id (some A.id) (some B.id) now).1 = some X' ∧
         A.sortOrder < X'.sortOrder ∧ X'.sortOrder < B.sortOrder ∧
         ∀ out, getKidsByLedgerResult
                  (reorderKidBetween s X.id (some A.id) (some B.id) now).2 lid out →
           beforeIn out A X' ∧ beforeIn out X' B) ∧
    (∀ A B X : Account,
       getAccount s A.id = some A → getAccount s B.id = some B →
       getAccount s X.id = some X →
       A.kidId = kidId → B.kidId = kidId → X.kidId = kidId →
       A.sortOrder < B.sortOrder → X.id ≠ A.id → X.id ≠ B.id →
       ∃ X', (reorderAccountBetween s X.id (some A.id) (some B.id) now).1 = some X' ∧
         A.sortOrder < X'.sortOrder ∧ X'.sortOrder < B.sortOrder ∧
         ∀ out, getAccountsByKidResult
                  (reorderAccountBetween s X.id (some A.id) (some B.id) now).2 kidId out →
           beforeIn out A X' ∧ beforeIn out X' B) := by
  constructor
  · intro A B X hA hB hX hAl hBl hXl hab hXA hXB
    have hkey : kidBetweenKey s (some A.id) (some B.id) =
        some ((A.sortOrder + B.sortOrder) / 2) := by
      simp [kidBetweenKey, hA, hB]
    have hcall : reorderKidBetween s X.id (some A.id) (some B.id) now =
        reorderKid s X.id ((A.sortOrder + B.sortOrder) / 2) now := by
      unfold reorderKidBetween
      rw [hX, hkey]
    set X' : Kid := { X with sortOrder := (A.sortOrder + B.sortOrder) / 2,
                             updatedAt := now } with hX'def
    have hfst : (reorderKidBetween s X.id (some A.id) (some B.id) now).1 = some X' := by
      rw [hcall, reorderKid_fst, hX]
      rfl
    have hmid1 : A.sortOrder < X'.sortOrder := by
      show A.sortOrder < (A.sortOrder + B.sortOrder) / 2
      linarith
    have hmid2 : X'.sortOrder < B.sortOrder := by
      show (A.sortOrder + B.sortOrder) / 2 < B.sortOrder
      linarith
    refine ⟨X', hfst, hmid1, hmid2, ?_⟩
    intro out hout
    rcases hout with ⟨hperm, hchain⟩
    have hs2 : (reorderKidBetween s X.id (some A.id) (some B.id) now).2 =
        { s with kids :=
            (s.kids.map (fun r => if r.id = X.id then X' else r)) } := by
      rw [hcall]
      unfold reorderKid
      rw [hX]
    rw [hs2] at hperm
    have hAmem : A ∈ kidsOfLedger
        { s with kids := s.kids.map (fun r => if r.id = X.id then X' else r) } lid := by
      refine List.mem_filter.mpr ⟨?_, by simp [hAl]⟩
      have hAin : A ∈ s.kids := List.mem_of_find?_eq_some hA
      have hmem := List.mem_map_of_mem (fun r : Kid => if r.id = X.id then X' else r) hAin
      have hAne : A.id ≠ X.id := fun h => hXA h.symm
      simpa [hAne] using hmem
    have hBmem : B ∈ kidsOfLedger
        { s with kids := s.kids.map (fun r => if r.id = X.id then X' else r) } lid := by
      refine List.mem_filter.mpr ⟨?_, by simp [hBl]⟩
      have hBin : B ∈ s.kids := List.mem_of_find?_eq_some hB
      have hmem := List.mem_map_of_mem (fun r : Kid => if r.id = X.id then X' else r) hBin
      have hBne : B.id ≠ X.id := fun h => hXB h.symm
      simpa [hBne] using hmem
    have hXmem : X' ∈ kidsOfLedger
        { s with kids := s.kids.map (fun r => if r.id = X.id then X' else r) } lid := by
      refine List.mem_filter.mpr ⟨?_, ?_⟩
      · have hXin : X ∈ s.kids := List.mem_of_find?_eq_some hX
        have hmem := List.mem_map_of_mem (fun r : Kid => if r.id = X.id then X' else r) hXin
        simpa using hmem
      · show (X'.ledgerId == lid) = true
        have : X'.ledgerId = X.ledgerId := rfl
        simp [this, hXl]
    exact ⟨sorted_lt_beforeIn Kid.sortOrder _ out hperm hchain A X' hAmem hXmem hmid1,
           sorted_lt_beforeIn Kid.sortOrder _ out hperm hchain X' B hXmem hBmem hmid2⟩
  · intro A B X hA hB hX hAl hBl hXl hab hXA hXB
    have hkey : accountBetweenKey s (some A.id) (some B.id) =
        some ((A.sortOrder + B.sortOrder) / 2) := by
      simp [accountBetweenKey, hA, hB]
    have hcall : reorderAccountBetween s X.id (some A.id) (some B.id) now =
        reorderAccount s X.id ((A.sortOrder + B.sortOrder) / 2) now := by
      unfold reorderAccountBetween
      rw [hX, hkey]
    set X' : Account := { X with sortOrder := (A.sortOrder + B.sortOrder) / 2,
                                 updatedAt := now } with hX'def
    have hfst : (reorderAccountBetween s X.id (some A.id) (some B.id) now).1 =
        some X' := by
      rw [hcall, reorderAccount_fst, hX]
      rfl
    have hmid1 : A.sortOrder < X'.sortOrder := by
      show A.sortOrder < (A.sortOrder + B.sortOrder) / 2
      linarith
    have hmid2 : X'.sortOrder < B.sortOrder := by
      show (A.sortOrder + B.sortOrder) / 2 < B.sortOrder
      linarith
    refine ⟨X', hfst, hmid1, hmid2, ?_⟩
    intro out hout
    rcases hout with ⟨hperm, hchain⟩
    have hs2 : (reorderAccountBetween s X.id (some A.id) (some B.id) now).2 =
        { s with accounts :=
            (s.accounts.map (fun r => if r.id = X.id then X' else r)) } := by
      rw [hcall]
      unfold reorderAccount
      rw [hX]
    rw [hs2] at hperm
    have hAmem : A ∈ accountsOfKid
        { s with accounts := s.accounts.map (fun r => if r.id = X.id then X' else r) }
        kidId := by
      refine List.mem_filter.mpr ⟨?_, by simp [hAl]⟩
      have hAin : A ∈ s.accounts := List.mem_of_find?_eq_some hA
      have hmem := List.mem_map_of_mem
        (fun r : Account => if r.id = X.id then X' else r) hAin
      have hAne : A.id ≠ X.id := fun h => hXA h.symm
      simpa [hAne] using hmem
    have hBmem : B ∈ accountsOfKid
        { s with accounts := s.accounts.map (fun r => if r.id = X.id then X' else r) }
        kidId := by
      refine List.mem_filter.mpr ⟨?_, by simp [hBl]⟩
      have hBin : B ∈ s.accounts := List.mem_of_find?_eq_some hB
      have hmem := List.mem_map_of_mem
        (fun r : Account => if r.id = X.id then X' else r) hBin
      have hBne : B.id ≠ X.id := fun h => hXB h.symm
      simpa [hBne] using hmem
    have hXmem : X' ∈ accountsOfKid
        { s with accounts := s.accounts.map (fun r => if r.id = X.id then X' else r) }
        kidId := by
      refine List.mem_filter.mpr ⟨?_, ?_⟩
      · have hXin : X ∈ s.accounts := List.mem_of_find?_eq_some hX
        have hmem := List.mem_map_of_mem
          (fun r : Account => if r.id = X.id then X' else r) hXin
        simpa using hmem
      · show (X'.kidId == kidId) = true
        have : X'.kidId = X.kidId := rfl
        simp [this, hXl]
    exact ⟨sorted_lt_beforeIn Account.sortOrder _ out hperm hchain A X' hAmem hXmem hmid1,
           sorted_lt_beforeIn Account.sortOrder _ out hperm hchain X' B hXmem hBmem hmid2⟩


/-- Witness for C4: in the sample store, moving kid 3 between kids 1 and 2
(keys 1 < 2) lands at 3/2, strictly between, and the in-order read places
kid 1 before the moved kid before kid 2. -/
theorem reorder_between_lands_between_witness :
    ∃ X', (reorderKidBetween wState wK3.id (some wK1.id) (some wK2.id) 9).1 =
            some X' ∧
      wK1.sortOrder < X'.sortOrder ∧ X'.sortOrder < wK2.sortOrder ∧
      beforeIn [wK1, X', wK2] wK1 X' ∧ beforeIn [wK1, X', wK2] X' wK2 := by
  obtain ⟨X', hfst, h1, h2, hread⟩ :=
    (reorder_between_lands_between wState "L" 1 9).1 wK1 wK2 wK3
      rfl rfl rfl rfl rfl rfl
      (by show (1 : ℚ) < 2; norm_num) (by decide) (by decide)
  have hc : (reorderKidBetween wState wK3.id (some wK1.id) (some wK2.id) 9).1 =
      some { wK3 with sortOrder := (wK1.sortOrder + wK2.sortOrder) / 2,
                      updatedAt := 9 } := rfl
  have hX' : X' = { wK3 with sortOrder := (wK1.sortOrder + wK2.sortOrder) / 2,
                             updatedAt := 9 } :=
    Option.some.inj (hfst.symm.trans hc)
  subst hX'
  have hbase : kidsOfLedger
      (reorderKidBetween wState wK3.id (some wK1.id) (some wK2.id) 9).2 "L" =
      [wK1, wK2, { wK3 with sortOrder := (wK1.sortOrder + wK2.sortOrder) / 2,
                            updatedAt := 9 }] := rfl
  have hperm : ([wK1, { wK3 with sortOrder := (wK1.sortOrder + wK2.sortOrder) / 2,
                                 updatedAt := 9 }, wK2] : List Kid).Perm
      (kidsOfLedger
        (reorderKidBetween wState wK3.id (some wK1.id) (some wK2.id) 9).2 "L") := by
    rw [hbase]
    exact (List.Perm.swap wK2 _ []).cons wK1
  have hchain : ([wK1, { wK3 with sortOrder := (wK1.sortOrder + wK2.sortOrder) / 2,
                                  updatedAt := 9 }, wK2] : List Kid).Chain'
      (fun a b => a.sortOrder ≤ b.sortOrder) :=
    List.chain'_cons.mpr ⟨le_of_lt h1,
      List.chain'_cons.mpr ⟨le_of_lt h2, List.chain'_singleton wK2⟩⟩
  have hres := hread _ ⟨hperm, hchain⟩
  exact ⟨_, hfst, h1, h2, hres.1, hres.2⟩


/-- A cons list always has a maximum. -/
theorem maxOrder_cons_isSome (x : ℚ) (xs : List ℚ) :
    ∃ m, maxOrder (x :: xs) = some m := by
  cases h : maxOrder xs with
  | none => exact ⟨x, by simp [maxOrder, h]⟩
  | some m => exact ⟨max x m, by simp [maxOrder, h]⟩

/-- Every member is bounded by the maximum (with default 0). -/
theorem le_maxOrder_getD : ∀ (l : List ℚ), ∀ q ∈ l, q ≤ (maxOrder l).getD 0 := by
  intro l
  induction l with
  | nil => intro q hq; simp at hq
  | cons x xs ih =>
      intro q hq
      rcases List.mem_cons.mp hq with rfl | hq'
      · cases hmx : maxOrder xs with
        | none => simp [maxOrder, hmx]
        | some m =>
            simp only [maxOrder, hmx, Option.getD_some]
            exact le_max_left _ _
      · have hle := ih q hq'
        cases hmx : maxOrder xs with
        | none =>
            cases xs with
            | nil => simp at hq'
            | cons y ys =>
                obtain ⟨m, hm⟩ := maxOrder_cons_isSome y ys
                rw [hm] at hmx
                exact absurd hmx (by simp)
        | some m =>
            rw [hmx, Option.getD_some] at hle
            simp only [maxOrder, hmx, Option.getD_some]
            exact le_trans hle (le_max_right _ _)


/-- C10: when `createKid`/`createAccount` are called without an explicit
sort key, the intended value — the maximum sibling `sortOrder` plus 1 —
never reaches the row: the source reads `maxOrder?.maxOrder` from a result
keyed `max_order`, so the new key is always `0 + 1 = 1`. In the sample
store (sibling keys 1, 2, 3) the intended key is 4, the assigned key is 1,
the new kid's key is strictly below sibling kid 2's, and an admissible
subsequent read lists the new kid first rather than last; the account path
fails the same way. -/
theorem create_default_key_always_one :
    (createKid wState "L" "Eve" "e" none 9).1.sortOrder = 1 ∧
    (maxOrder ((kidsOfLedger wState "L").map Kid.sortOrder)).getD 0 + 1 = 4 ∧
    wK2 ∈ kidsOfLedger wState "L" ∧
    (createKid wState "L" "Eve" "e" none 9).1.sortOrder < wK2.sortOrder ∧
    getKidsByLedgerResult (createKid wState "L" "Eve" "e" none 9).2 "L"
      ((createKid wState "L" "Eve" "e" none 9).1 :: [wK1, wK2, wK3]) ∧
    ((createKid wState "L" "Eve" "e" none 9).1 :: [wK1, wK2, wK3]).getLast? ≠
      some (createKid wState "L" "Eve" "e" none 9).1 ∧
    (createAccount wState 1 "Gifts" 0 none 9).1.sortOrder = 1 ∧
    wA2 ∈ accountsOfKid wState 1 ∧
    (createAccount wState 1 "Gifts" 0 none 9).1.sortOrder < wA2.sortOrder := by
  refine ⟨?_, ?_, ?_, ?_, ⟨?_, ?_⟩, ?_, ?_, ?_, ?_⟩
  · show (0 : ℚ) + 1 = 1
    norm_num
  · have h : maxOrder ((kidsOfLedger wState "L").map Kid.sortOrder) =
        some (max wK1.sortOrder (max wK2.sortOrder wK3.sortOrder)) := rfl
    rw [h, Option.getD_some]
    show max (1 : ℚ) (max 2 3) + 1 = 4
    rw [max_eq_right (by norm_num : (2 : ℚ) ≤ 3),
        max_eq_right (by norm_num : (1 : ℚ) ≤ 3)]
    norm_num
  · rw [show kidsOfLedger wState "L" = [wK1, wK2, wK3] from rfl]
    simp
  · show (0 : ℚ) + 1 < wK2.sortOrder
    show (0 : ℚ) + 1 < 2
    norm_num
  · rw [show kidsOfLedger (createKid wState "L" "Eve" "e" none 9).2 "L" =
        [wK1, wK2, wK3, (createKid wState "L" "Eve" "e" none 9).1] from rfl]
    exact (List.perm_append_singleton _ _).symm
  · refine List.chain'_cons.mpr ⟨?_, List.chain'_cons.mpr ⟨?_,
      List.chain'_cons.mpr ⟨?_, List.chain'_singleton _⟩⟩⟩
    · show (0 : ℚ) + 1 ≤ wK1.sortOrder
      show (0 : ℚ) + 1 ≤ 1
      norm_num
    · show wK1.sortOrder ≤ wK2.sortOrder
      show (1 : ℚ) ≤ 2
      norm_num
    · show wK2.sortOrder ≤ wK3.sortOrder
      show (2 : ℚ) ≤ 3
      norm_num
  · intro h
    have hg : ((createKid wState "L" "Eve" "e" none 9).1 ::
        [wK1, wK2, wK3]).getLast? = some wK3 := rfl
    rw [hg] at h
    have hid := congrArg Kid.id (Option.some.inj h)
    exact absurd hid (by decide)
  · show (0 : ℚ) + 1 = 1
    norm_num
  · rw [show accountsOfKid wState 1 = [wA1, wA2, wA3] from rfl]
    simp
  · show (0 : ℚ) + 1 < wA2.sortOrder
    show (0 : ℚ) + 1 < 2
    norm_num

end KidsLedger
